import Mathlib

/-
  Shallow embedding of src/DictBST.h (class DictBST<KeyType, ValueType>).

  A C++ Node* is modelled by Tree: Tree.leaf is the null handle, and
  Tree.node k v l r is a heap Node with fields data = k, value = v,
  left = l, right = r.  The back field (parent handle) of every node built
  by the class equals its actual parent (see the Node constructors used in
  add, get and copy), so a node position is determined by its path of
  left/right turns from the root and the back handle corresponds to
  dropping the last turn; positions are therefore embedded as lists of
  turns where needed.

  KeyType is a type with a strict total order and equality (LinearOrder);
  ValueType is any inhabited type, and a member initialized by default
  construction is modelled by the default element.

  Outcomes that C++ leaves undefined are made explicit:
    - reading a local variable that was never assigned (DictBST::remove,
      local Node* named remove, when the search loop body never runs);
    - dereferencing a null Node* (Node::freeNodes on a null argument,
      other.root->copy() on an empty source, begin() on an empty tree,
      p->right->value when p->right is null in mutable get).
  Such paths are mapped to a distinguished undefined result (none, or a
  dedicated constructor of a result type).
-/

namespace DictBST

/-- Model of a Node* handle: leaf is the null handle, node carries the
data (key) and value fields and the two child handles. -/
inductive Tree (α β : Type) : Type
  | leaf : Tree α β
  | node : α → β → Tree α β → Tree α β → Tree α β
  deriving DecidableEq

/-- One turn on a root-to-node path: into the left or the right child. -/
inductive Dir : Type
  | left : Dir
  | right : Dir
  deriving DecidableEq

/-- Result of DictBST::remove: ok is a defined result tree, ub marks a
read of the never-assigned local variable, div marks a recursion chain
longer than the depth counter allows (unbounded recursion in the source). -/
inductive RemRes (α β : Type) : Type
  | ok : Tree α β → RemRes α β
  | ub : RemRes α β
  | div : RemRes α β
  deriving DecidableEq

/-- Result of the mutable DictBST::get: ok carries the tree after the call
and the value the returned reference denotes; ub marks a null dereference. -/
inductive MGetRes (α β : Type) : Type
  | ok : Tree α β → β → MGetRes α β
  | ub : MGetRes α β
  deriving DecidableEq

/-- Result of the const DictBST::get: ok carries the returned value, err
is the thrown exception (std::invalid_argument, the KeyNotFound condition
of the specification), ub marks a null dereference. -/
inductive GetRes (β : Type) : Type
  | ok : β → GetRes β
  | err : GetRes β
  | ub : GetRes β
  deriving DecidableEq

variable {α β : Type}

/-- Number of nodes of a tree. -/
def size : Tree α β → Nat
  | Tree.leaf => 0
  | Tree.node _ _ l r => size l + size r + 1

/-- DictBST::has (lines 59-70): descend from the root, comparing the key
with the data field by equality first, then by the strict order. -/
def has [LinearOrder α] : Tree α β → α → Bool
  | Tree.leaf, _ => false
  | Tree.node k2 _ l r, k =>
    if k = k2 then true
    else if k < k2 then has l k
    else has r k

/-- DictBST::add (lines 80-97): on an empty tree create the root;
otherwise descend while the data field differs from the key, creating the
missing child the first time an empty branch is met; reaching an equal
node stops the descent without touching its value. -/
def add [LinearOrder α] : Tree α β → α → β → Tree α β
  | Tree.leaf, k, v => Tree.node k v Tree.leaf Tree.leaf
  | Tree.node k2 v2 l r, k, v =>
    if k = k2 then Tree.node k2 v2 l r
    else if k < k2 then Tree.node k2 v2 (add l k v) r
    else Tree.node k2 v2 l (add r k v)

/-- The descent loop shared by both get overloads on the present path
(lines 134-141 and 169-176): return the value field of the node whose data
equals the key; none models the loop running off a null handle. -/
def lookupGo [LinearOrder α] : Tree α β → α → Option β
  | Tree.leaf, _ => none
  | Tree.node k2 v l r, k =>
    if k = k2 then some v
    else if k < k2 then lookupGo l k
    else lookupGo r k

/-- In-order listing of (data, value) pairs, the order in which the
iterator of the class visits nodes. -/
def inorder : Tree α β → List (α × β)
  | Tree.leaf => []
  | Tree.node k v l r => inorder l ++ (k, v) :: inorder r

/-- Every key of the tree satisfies the given boolean predicate. -/
def treeAll (p : α → Bool) : Tree α β → Bool
  | Tree.leaf => true
  | Tree.node k _ l r => p k && treeAll p l && treeAll p r

/-- The binary-search-tree order invariant with pairwise distinct keys:
keys of the left subtree are strictly below the root key, keys of the
right subtree strictly above, recursively. -/
def bst [LinearOrder α] : Tree α β → Bool
  | Tree.leaf => true
  | Tree.node k _ l r =>
    treeAll (fun x => decide (x < k)) l &&
    treeAll (fun x => decide (k < x)) r &&
    bst l && bst r

/-- The search loop of DictBST::remove (lines 110-117): starting one step
below the comparison against the root, descend tracking the slot that
holds the current node; returns the turn path and the subtree at the node
whose data equals the key, or none when an empty slot is reached. -/
def findNode [LinearOrder α] : Tree α β → α → Option (List Dir × Tree α β)
  | Tree.leaf, _ => none
  | Tree.node k2 v2 l r, k =>
    if k = k2 then some ([], Tree.node k2 v2 l r)
    else if k < k2 then
      match findNode l k with
      | none => none
      | some (p, s) => some (Dir.left :: p, s)
    else
      match findNode r k with
      | none => none
      | some (p, s) => some (Dir.right :: p, s)

/-- Overwrite the slot at the given turn path with the given subtree;
models an assignment through the tracked slot pointer. -/
def replaceAt : Tree α β → List Dir → Tree α β → Tree α β
  | _, [], s => s
  | Tree.leaf, _ :: _, _ => Tree.leaf
  | Tree.node k v l r, Dir.left :: p, s => Tree.node k v (replaceAt l p s) r
  | Tree.node k v l r, Dir.right :: p, s => Tree.node k v l (replaceAt r p s)

/-- Overwrite only the data field of the node at the given turn path,
leaving its value field and children unchanged; models the assignment
remove->data = replacement at line 123. -/
def setKeyAt : Tree α β → List Dir → α → Tree α β
  | Tree.leaf, _, _ => Tree.leaf
  | Tree.node _ v l r, [], k2 => Tree.node k2 v l r
  | Tree.node k v l r, Dir.left :: p, k2 => Tree.node k v (setKeyAt l p k2) r
  | Tree.node k v l r, Dir.right :: p, k2 => Tree.node k v l (setKeyAt r p k2)

/-- Node::maxKey (lines 271-276) applied to the node with the given data
field and right child: follow right children while present and return the
data field of the last node. -/
def maxKeyGo : α → Tree α β → α
  | k, Tree.leaf => k
  | _, Tree.node k2 _ _ r => maxKeyGo k2 r

/-- Node::minKey (lines 277-282) applied to the node with the given data
field and left child: follow left children while present and return the
data field of the last node. -/
def minKeyGo : α → Tree α β → α
  | k, Tree.leaf => k
  | _, Tree.node k2 _ l _ => minKeyGo k2 l

/-- DictBST::remove (lines 107-129).  The local Node* named remove is
assigned only inside the search loop body; when that body never runs
(empty tree, or the root data equals the key) the subsequent comparison
reads a never-assigned local: result ub.  Otherwise: key absent means the
loop ended on a null slot and the function returns with no change; a leaf
match is detached through its slot; a non-leaf match picks the replacement
key (max of the left subtree if a left child exists, else min of the right
subtree), removes that key recursively from the whole tree, then
overwrites only the data field of the matched node.  The first argument
counts the allowed depth of that recursion; exhausting it is div. -/
def removeGo [LinearOrder α] : Nat → Tree α β → α → RemRes α β
  | 0, _, _ => RemRes.div
  | _ + 1, Tree.leaf, _ => RemRes.ub
  | n + 1, Tree.node k2 v2 l2 r2, k =>
    if k = k2 then RemRes.ub
    else
      match findNode (Tree.node k2 v2 l2 r2) k with
      | none => RemRes.ok (Tree.node k2 v2 l2 r2)
      | some (p, s) =>
        match s with
        | Tree.leaf => RemRes.ub
        | Tree.node _ _ Tree.leaf Tree.leaf =>
          RemRes.ok (replaceAt (Tree.node k2 v2 l2 r2) p Tree.leaf)
        | Tree.node _ _ sl sr =>
          let repl :=
            match sl with
            | Tree.node lk _ _ lr => maxKeyGo lk lr
            | Tree.leaf =>
              match sr with
              | Tree.node rk _ rl _ => minKeyGo rk rl
              | Tree.leaf => k
          match removeGo n (Tree.node k2 v2 l2 r2) repl with
          | RemRes.ok t2 => RemRes.ok (setKeyAt t2 p repl)
          | e => e

/-- DictBST::remove with a depth allowance that covers every chain of
nested replacement removals a tree of this size can produce. -/
def remove [LinearOrder α] (t : Tree α β) (k : α) : RemRes α β :=
  removeGo (size t + 1) t k

/-- The absent branch of the mutable DictBST::get (lines 143-161): descend
by order comparisons only; on a missing left branch a node is created
there, yet the function returns p->right->value, the value of the right
child of the current node (a null dereference when that child is absent);
on a missing right branch the created node is the right child, so the same
member access returns the fresh value.  An empty tree skips the loop and
falls through to return p->value on the null handle. -/
def getMutAbs [LinearOrder α] [Inhabited β] : Tree α β → α → MGetRes α β
  | Tree.leaf, _ => MGetRes.ub
  | Tree.node k2 v2 l r, k =>
    if k < k2 then
      match l with
      | Tree.node a b c d =>
        match getMutAbs (Tree.node a b c d) k with
        | MGetRes.ok l2 v => MGetRes.ok (Tree.node k2 v2 l2 r) v
        | MGetRes.ub => MGetRes.ub
      | Tree.leaf =>
        match r with
        | Tree.leaf => MGetRes.ub
        | Tree.node _ rv _ _ =>
          MGetRes.ok (Tree.node k2 v2 (Tree.node k default Tree.leaf Tree.leaf) r) rv
    else
      match r with
      | Tree.node a b c d =>
        match getMutAbs (Tree.node a b c d) k with
        | MGetRes.ok r2 v => MGetRes.ok (Tree.node k2 v2 l r2) v
        | MGetRes.ub => MGetRes.ub
      | Tree.leaf =>
        MGetRes.ok (Tree.node k2 v2 l (Tree.node k default Tree.leaf Tree.leaf)) default

/-- The mutable DictBST::get (lines 131-164): on a present key the tree is
unchanged and the stored value is returned; on an absent key the absent
branch runs. -/
def getMut [LinearOrder α] [Inhabited β] (t : Tree α β) (k : α) : MGetRes α β :=
  if has t k then
    match lookupGo t k with
    | some v => MGetRes.ok t v
    | none => MGetRes.ub
  else getMutAbs t k

/-- The const DictBST::get (lines 166-182): a method on a const object, so
it performs no assignment; on a present key the descent returns the stored
value, on an absent key std::invalid_argument is thrown (err). -/
def getConst [LinearOrder α] (t : Tree α β) (k : α) : GetRes β :=
  if has t k then
    match lookupGo t k with
    | some v => GetRes.ok v
    | none => GetRes.ub
  else GetRes.err

/-- Node::freeNodes (lines 283-291): called on a null handle it evaluates
node->isLeaf(), a null dereference (none); on a node it recurses into each
present child and then nulls the slot (no delete is executed, but that
leak has no functional effect here). -/
def freeNodes : Tree α β → Option Unit
  | Tree.leaf => none
  | Tree.node _ _ Tree.leaf Tree.leaf => some ()
  | Tree.node _ _ Tree.leaf (Tree.node e f g h) =>
    match freeNodes (Tree.node e f g h) with
    | none => none
    | some _ => some ()
  | Tree.node _ _ (Tree.node a b c d) Tree.leaf =>
    match freeNodes (Tree.node a b c d) with
    | none => none
    | some _ => some ()
  | Tree.node _ _ (Tree.node a b c d) (Tree.node e f g h) =>
    match freeNodes (Tree.node a b c d) with
    | none => none
    | some _ =>
      match freeNodes (Tree.node e f g h) with
      | none => none
      | some _ => some ()

/-- Node::copy (lines 308-319): the clone is built by new Node(data,
nullptr), the constructor taking a data field and a back handle, so the
value field of the clone is default-initialized and never copied from the
source node; children are cloned only when present. -/
def copy [Inhabited β] : Tree α β → Tree α β
  | Tree.leaf => Tree.leaf
  | Tree.node k _ l r => Tree.node k default (copy l) (copy r)

/-- Copy assignment, lines 41-47, for distinct source and target objects:
Node::freeNodes(root) runs on the target root unguarded, then root =
other.root->copy() dereferences the source root unguarded.  none marks the
null dereference on either step. -/
def copyAssign [Inhabited β] (target source : Tree α β) : Option (Tree α β) :=
  match freeNodes target with
  | none => none
  | some _ =>
    match source with
    | Tree.leaf => none
    | Tree.node a b c d => some (copy (Tree.node a b c d))

/-- Copy construction, lines 35-37: default-construct (null root), then
delegate to copy assignment, whose first step frees the null root. -/
def copyCtor [Inhabited β] (source : Tree α β) : Option (Tree α β) :=
  copyAssign Tree.leaf source

/-- Move construction, lines 38-40: the body is *this = temp where temp is
a named reference and hence an lvalue, so overload resolution selects the
copy assignment, not the move assignment; the behaviour is exactly that of
copy construction. -/
def moveCtor [Inhabited β] (source : Tree α β) : Option (Tree α β) :=
  copyAssign Tree.leaf source

/-- Move assignment, lines 48-51: std::swap of the two root handles;
returns the pair (new target root, new source root). -/
def moveAssign (target source : Tree α β) : Tree α β × Tree α β :=
  (source, target)

/-- The destructor, lines 32-34: Node::freeNodes(root) with no null guard. -/
def destroyDict (t : Tree α β) : Option Unit :=
  freeNodes t

/-- The descent of DictBST::begin (lines 212-215) from a node: follow left
children while present; returns the turn path of the minimum node. -/
def minPath : Tree α β → List Dir
  | Tree.leaf => []
  | Tree.node _ _ l _ =>
    match l with
    | Tree.leaf => []
    | Tree.node a b c d => Dir.left :: minPath (Tree.node a b c d)

/-- DictBST::begin (lines 211-218): on an empty tree the loop condition
p->hasLeft() dereferences the null root (none); otherwise the position of
the minimum node is returned.  A position is a turn path, or the inner
none for the end sentinel (a null current handle). -/
def beginIt : Tree α β → Option (Option (List Dir))
  | Tree.leaf => none
  | Tree.node a b c d => some (some (minPath (Tree.node a b c d)))

/-- DictBST::end (lines 234-237): the iterator holding the null handle. -/
def endIter : Option (List Dir) := none

/-- The tree produced by add(3,30), add(1,10), add(2,20) on a fresh
dictionary. -/
def sampleA : Tree Nat Nat :=
  Tree.node 3 30 (Tree.node 1 10 Tree.leaf (Tree.node 2 20 Tree.leaf Tree.leaf)) Tree.leaf

/-- The tree left by remove(1) on sampleA: the node that held 1 now holds
data 2 but still the value 10. -/
def sampleB : Tree Nat Nat :=
  Tree.node 3 30 (Tree.node 2 10 Tree.leaf Tree.leaf) Tree.leaf

/-- A dictionary with entries 5 maps-to 50 and 8 maps-to 80; the root has
no left child. -/
def sampleC : Tree Nat Nat :=
  Tree.node 5 50 Tree.leaf (Tree.node 8 80 Tree.leaf Tree.leaf)

/-- The tree after mutable get(3) on sampleC: 3 inserted with the default
value 0. -/
def sampleD : Tree Nat Nat :=
  Tree.node 5 50 (Tree.node 3 0 Tree.leaf Tree.leaf) (Tree.node 8 80 Tree.leaf Tree.leaf)

/- ------------------------------------------------------------------ -/
/- Supporting lemmas                                                   -/
/- ------------------------------------------------------------------ -/

theorem lookupGo_isSome_eq_has [LinearOrder α] (t : Tree α β) (k : α) :
    (lookupGo t k).isSome = has t k := by
  induction t with
  | leaf => rfl
  | node k2 v l r ihl ihr =>
    by_cases h1 : k = k2
    · simp [lookupGo, has, h1]
    · by_cases h2 : k < k2
      · simp [lookupGo, has, h1, h2, ihl]
      · simp [lookupGo, has, h1, h2, ihr]

theorem treeAll_of_mem [LinearOrder α] {p : α → Bool} {t : Tree α β}
    (h : treeAll p t = true) {k : α} {v : β} (hm : (k, v) ∈ inorder t) :
    p k = true := by
  induction t with
  | leaf => simp [inorder] at hm
  | node k2 v2 l r ihl ihr =>
    simp only [treeAll, Bool.and_eq_true] at h
    simp only [inorder, List.mem_append, List.mem_cons, Prod.mk.injEq] at hm
    rcases hm with hm | hm | hm
    · exact ihl h.1.2 hm
    · rcases hm with ⟨hk, _⟩
      rw [hk]
      exact h.1.1
    · exact ihr h.2 hm

theorem lookupGo_eq_some_iff_mem [LinearOrder α] {t : Tree α β}
    (hb : bst t = true) (k : α) (v : β) :
    lookupGo t k = some v ↔ (k, v) ∈ inorder t := by
  induction t with
  | leaf => simp [lookupGo, inorder]
  | node k2 v2 l r ihl ihr =>
    simp only [bst, Bool.and_eq_true] at hb
    obtain ⟨⟨⟨hal, har⟩, hbl⟩, hbr⟩ := hb
    by_cases h1 : k = k2
    · subst h1
      have hl : lookupGo (Tree.node k v2 l r) k = some v2 := by
        simp [lookupGo]
      rw [hl]
      constructor
      · intro h
        injection h with h
        subst h
        simp [inorder]
      · intro hm
        simp [inorder, Prod.mk.injEq] at hm
        rcases hm with hm | hm | hm
        · have hlt := of_decide_eq_true (treeAll_of_mem hal hm)
          exact absurd hlt (lt_irrefl k)
        · rw [hm]
        · have hlt := of_decide_eq_true (treeAll_of_mem har hm)
          exact absurd hlt (lt_irrefl k)
    · by_cases h2 : k < k2
      · simp only [lookupGo, if_neg h1, if_pos h2]
        rw [ihl hbl]
        constructor
        · intro hm
          simp only [inorder, List.mem_append, List.mem_cons]
          exact Or.inl hm
        · intro hm
          simp only [inorder, List.mem_append, List.mem_cons, Prod.mk.injEq] at hm
          rcases hm with hm | hm | hm
          · exact hm
          · exact absurd hm.1 h1
          · have hlt := of_decide_eq_true (treeAll_of_mem har hm)
            exact absurd h2 (asymm hlt)
      · simp only [lookupGo, if_neg h1, if_neg h2]
        rw [ihr hbr]
        constructor
        · intro hm
          simp only [inorder, List.mem_append, List.mem_cons]
          exact Or.inr (Or.inr hm)
        · intro hm
          simp only [inorder, List.mem_append, List.mem_cons, Prod.mk.injEq] at hm
          rcases hm with hm | hm | hm
          · have hlt := of_decide_eq_true (treeAll_of_mem hal hm)
            exact absurd hlt h2
          · exact absurd hm.1 h1
          · exact hm

theorem has_false_not_mem [LinearOrder α] {t : Tree α β}
    (hb : bst t = true) {k : α} (hf : has t k = false) (v : β) :
    (k, v) ∉ inorder t := by
  intro hm
  have hl := (lookupGo_eq_some_iff_mem hb k v).mpr hm
  have hs : (lookupGo t k).isSome = true := by
    rw [hl]
    rfl
  rw [lookupGo_isSome_eq_has, hf] at hs
  cases hs

theorem freeNodes_of_ne_leaf (t : Tree α β) (h : t ≠ Tree.leaf) :
    freeNodes t = some () := by
  induction t with
  | leaf => exact absurd rfl h
  | node k v l r ihl ihr =>
    cases l with
    | leaf =>
      cases r with
      | leaf => rfl
      | node e f g h2 =>
        have hr := ihr (by intro hc; cases hc)
        simp [freeNodes, hr]
    | node a b c d =>
      have hl := ihl (by intro hc; cases hc)
      cases r with
      | leaf => simp [freeNodes, hl]
      | node e f g h2 =>
        have hr := ihr (by intro hc; cases hc)
        simp [freeNodes, hl, hr]

/- ------------------------------------------------------------------ -/
/- Claim theorems                                                      -/
/- ------------------------------------------------------------------ -/

/-- C1: the claim asserts that after every operation of every add/remove
sequence from the empty dictionary the iteration order is strictly
ascending.  The code breaks this: the sequence add(0,0); remove(0) makes
the search loop of remove exit before its body ever runs (the root data
equals the key), so the following comparison reads the never-assigned
local Node* and the program state after the operation is undefined; no
defined iteration sequence exists. -/
theorem c1_remove_root_key_reads_unassigned_local :
    remove (add (Tree.leaf : Tree Nat Nat) 0 0) 0 = RemRes.ub := by decide

/-- C2: remove(1) on the dictionary built by add(3,30), add(1,10),
add(2,20) hits a non-leaf node; the code picks the replacement key 2
(minimum of the right subtree, as claimed) and removes it recursively, but
then executes only remove->data = replacement: the value field keeps the
old 10, while the replacement entry originally carried 20.  The claim that
the value is overwritten as well is false on the code. -/
theorem c2_remove_discards_replacement_value :
    add (add (add (Tree.leaf : Tree Nat Nat) 3 30) 1 10) 2 20 = sampleA
    ∧ lookupGo sampleA 2 = some 20
    ∧ remove sampleA 1 = RemRes.ok sampleB
    ∧ lookupGo sampleB 2 = some 10 := by decide

/-- C3: mutable get(3) on the dictionary 5 maps-to 50, 8 maps-to 80 (key 3
absent) creates the node for 3 as the left child of 5 with the default
value 0, but then returns p->right->value, the value 80 stored in the
sibling node 8 - not a reference to the value of the new node, refuting
the claim.  On an empty dictionary the same overload skips its loop and
dereferences the null root, inserting nothing at all. -/
theorem c3_mutable_get_returns_sibling_value :
    has sampleC 3 = false
    ∧ getMut sampleC 3 = MGetRes.ok sampleD 80
    ∧ lookupGo sampleD 3 = some 0
    ∧ has sampleD 3 = true
    ∧ getMut (Tree.leaf : Tree Nat Nat) 3 = MGetRes.ub := by decide

/-- C4: remove(0) on the empty dictionary makes the search loop condition
fail at once, so the loop body that assigns the local Node* never runs and
the subsequent null check reads a never-assigned local: undefined
behaviour, not the safe no-op the claim promises. -/
theorem c4_remove_on_empty_reads_unassigned_local :
    remove (Tree.leaf : Tree Nat Nat) 0 = RemRes.ub := by decide

/-- C5: copy semantics do not clone values, and copy construction always
dereferences null.  Copy-assigning the dictionary 1 maps-to 10 into the
dictionary 2 maps-to 20 yields a tree whose single node has key 1 but the
default value 0, because Node::copy builds the clone with new Node(data,
nullptr), the constructor that leaves the value field default-initialized.
Copy construction delegates to copy assignment with a null target root, so
Node::freeNodes dereferences null before any cloning. -/
theorem c5_copy_assignment_and_construction_defects :
    copyAssign (Tree.node 2 20 Tree.leaf Tree.leaf : Tree Nat Nat)
        (Tree.node 1 10 Tree.leaf Tree.leaf)
      = some (Tree.node 1 0 Tree.leaf Tree.leaf)
    ∧ copyCtor (Tree.node 1 10 Tree.leaf Tree.leaf : Tree Nat Nat) = none := by decide

/-- C6: the const get throws exactly when the key is absent, returns the
stored value when present, and never reaches an undefined state; being a
method on a const object it performs no mutation (its embedding consumes
the tree read-only).  Stated through the in-order entry list under the
search-tree invariant. -/
theorem c6_const_get_characterization [LinearOrder α] (t : Tree α β) (k : α)
    (hb : bst t = true) :
    (getConst t k = GetRes.err ↔ ∀ v, (k, v) ∉ inorder t)
    ∧ (∀ v, getConst t k = GetRes.ok v ↔ (k, v) ∈ inorder t)
    ∧ getConst t k ≠ GetRes.ub := by
  by_cases h : has t k = true
  · have hsome : (lookupGo t k).isSome = true := by
      rw [lookupGo_isSome_eq_has]
      exact h
    obtain ⟨v0, hv0⟩ := Option.isSome_iff_exists.mp hsome
    have hg : getConst t k = GetRes.ok v0 := by
      simp [getConst, h, hv0]
    have hmem : (k, v0) ∈ inorder t := (lookupGo_eq_some_iff_mem hb k v0).mp hv0
    refine ⟨?_, ?_, ?_⟩
    · rw [hg]
      constructor
      · intro hc
        cases hc
      · intro hall
        exact absurd hmem (hall v0)
    · intro v
      rw [hg]
      constructor
      · intro hc
        injection hc with hc
        subst hc
        exact hmem
      · intro hm
        have hv := (lookupGo_eq_some_iff_mem hb k v).mpr hm
        rw [hv0] at hv
        injection hv with hv
        rw [hv]
    · rw [hg]
      intro hc
      cases hc
  · have hf : has t k = false := by
      cases hhh : has t k
      · rfl
      · exact absurd hhh h
    have hg : getConst t k = GetRes.err := by
      simp [getConst, hf]
    refine ⟨?_, ?_, ?_⟩
    · rw [hg]
      constructor
      · intro _
        exact fun v => has_false_not_mem hb hf v
      · intro _
        rfl
    · intro v
      rw [hg]
      constructor
      · intro hc
        cases hc
      · intro hm
        exact absurd hm (has_false_not_mem hb hf v)
    · rw [hg]
      intro hc
      cases hc

/-- Witness for C6 on a concrete dictionary and key. -/
theorem c6_const_get_characterization_witness :
    bst sampleA = true
    ∧ ((getConst sampleA 2 = GetRes.err ↔ ∀ v, (2, v) ∉ inorder sampleA)
       ∧ (∀ v, getConst sampleA 2 = GetRes.ok v ↔ (2, v) ∈ inorder sampleA)
       ∧ getConst sampleA 2 ≠ GetRes.ub) :=
  ⟨by decide, c6_const_get_characterization sampleA 2 (by decide)⟩

/-- C7: after add(key, value) the key is present, and when the key was
already present the call changes nothing at all - neither the structure
nor the stored value - because the descent stops at the equal node without
assigning. -/
theorem c7_add_present_and_noop [LinearOrder α] (t : Tree α β) (k : α) (v : β) :
    has (add t k v) k = true ∧ (has t k = true → add t k v = t) := by
  induction t with
  | leaf =>
    constructor
    · simp [add, has]
    · intro h
      simp [has] at h
  | node k2 v2 l r ihl ihr =>
    by_cases h1 : k = k2
    · constructor
      · simp [add, has, h1]
      · intro _
        simp [add, h1]
    · by_cases h2 : k < k2
      · constructor
        · simp [add, has, h1, h2, ihl.1]
        · intro h
          simp only [has, if_neg h1, if_pos h2] at h
          simp [add, h1, h2, ihl.2 h]
      · constructor
        · simp [add, has, h1, h2, ihr.1]
        · intro h
          simp only [has, if_neg h1, if_neg h2] at h
          simp [add, h1, h2, ihr.2 h]

/-- Witness for C7: re-adding the present key 2 with a new value leaves
the concrete dictionary unchanged. -/
theorem c7_add_present_and_noop_witness :
    has sampleA 2 = true ∧ add sampleA 2 99 = sampleA :=
  ⟨by decide, (c7_add_present_and_noop sampleA 2 99).2 (by decide)⟩

/-- C8: move construction does not transfer the root.  Its body *this =
temp uses the named parameter, an lvalue, so the copy assignment overload
is selected and Node::freeNodes runs on the null root of the object under
construction: a null dereference instead of an O(1) root exchange, and the
source is never emptied. -/
theorem c8_move_construction_hits_null_free :
    moveCtor (Tree.node 1 10 Tree.leaf Tree.leaf : Tree Nat Nat) = none := by decide

/-- C9 counterexample: on the empty dictionary begin() does not return the
end position; its loop condition dereferences the null root, so the call
has no defined result at all. -/
theorem c9_begin_on_empty_is_not_end :
    ¬ (beginIt (Tree.leaf : Tree Nat Nat) = some endIter) := by decide

/-- C9 amended: on the empty dictionary has(k) is false for every key, but
begin() is not hardened: it dereferences the null root (undefined
behaviour) instead of returning the end position. -/
theorem c9_empty_has_false_and_begin_undefined :
    (∀ k : Nat, has (Tree.leaf : Tree Nat Nat) k = false)
    ∧ beginIt (Tree.leaf : Tree Nat Nat) = none :=
  ⟨fun _ => rfl, rfl⟩

/-- C10 counterexample: copy assignment between two non-empty
dictionaries completes without any null dereference, refuting the part of
the claim that says copy-assigning into any dictionary reaches one. -/
theorem c10_copy_assign_nonempty_to_nonempty_defined :
    copyAssign (Tree.node 1 10 Tree.leaf Tree.leaf : Tree Nat Nat)
        (Tree.node 2 20 Tree.leaf Tree.leaf) ≠ none := by decide

/-- C10 amended: destroying an empty dictionary, copy-assigning into an
empty dictionary, copy-assigning from an empty source, and
copy-constructing from an empty source all reach a null-node dereference,
because Node::freeNodes and Node::copy assume a non-null node and their
callers pass the root unguarded. -/
theorem c10_null_dereference_cases (s t : Tree Nat Nat) :
    destroyDict (Tree.leaf : Tree Nat Nat) = none
    ∧ copyAssign Tree.leaf s = none
    ∧ copyAssign t Tree.leaf = none
    ∧ copyCtor (Tree.leaf : Tree Nat Nat) = none := by
  refine ⟨rfl, rfl, ?_, rfl⟩
  cases t with
  | leaf => rfl
  | node k v l r =>
    simp [copyAssign, freeNodes_of_ne_leaf (Tree.node k v l r) (by intro hc; cases hc)]

/-- Witness for C10 at concrete dictionaries. -/
theorem c10_null_dereference_cases_witness :
    destroyDict (Tree.leaf : Tree Nat Nat) = none
    ∧ copyAssign Tree.leaf sampleA = none
    ∧ copyAssign sampleC Tree.leaf = none
    ∧ copyCtor (Tree.leaf : Tree Nat Nat) = none :=
  c10_null_dereference_cases sampleA sampleC

end DictBST
